import Mathlib

/-!
Shallow embedding of the Sentry frontend code under verification.

The source is TypeScript; this file translates the functions the claims
are about into executable Lean definitions:

* JavaScript `Map` / `Set` values are modelled as insertion-ordered lists
  (`JsMap`, `JsSet`) with the mutating JS operations rendered as pure
  functions that return the updated value;
* `async` functions performing HTTP requests are modelled as functions of
  the sequence of responses the server would give: each loop iteration
  consumes the next response, and the model additionally records the
  trace of requests (the cursor of each page request) and the indicator
  messages the code emits;
* a thrown/rejected error is modelled with an explicit outcome value
  carrying the error object.
-/

/-- JavaScript `Map` / plain object modelled as an insertion-ordered
association list.  `jsGet` is `Map.prototype.get` (first entry with an
equal key; a map built only through `jsSet` has no duplicate keys). -/
def jsGet {α β : Type} [BEq α] : List (α × β) → α → Option β
  | [], _ => none
  | (k, v) :: rest, key => if k == key then some v else jsGet rest key

/-- `Map.prototype.set`: replace the value of an existing key in place,
otherwise append the new entry at the end. -/
def jsSet {α β : Type} [BEq α] : List (α × β) → α → β → List (α × β)
  | [], key, val => [(key, val)]
  | (k, v) :: rest, key, val =>
    if k == key then (k, val) :: rest else (k, v) :: jsSet rest key val

/-- `Map.prototype.has`. -/
def jsHas {α β : Type} [BEq α] (m : List (α × β)) (k : α) : Bool :=
  (jsGet m k).isSome

/-- JavaScript `Set` modelled as an insertion-ordered duplicate-free
list; `jsAdd` is `Set.prototype.add`. -/
def jsAdd {α : Type} [BEq α] (s : List α) (a : α) : List α :=
  if s.contains a then s else s ++ [a]

/-- `Set.prototype.delete` (result of the mutation; the returned boolean
of the JS method is unused by the code modelled here). -/
def jsDelete {α : Type} [BEq α] (s : List α) (a : α) : List α :=
  s.filter (fun x => !(x == a))

/-! ## app/actionCreators/performance (src/unnamed/part_004) -/

/-- `type TransactionNames = Set<string>` -/
abbrev TransactionNames := List String

/-- `type KeyTransactionPerProject = Map<string, TransactionNames>` -/
abbrev KeyTransactionPerProject := List (String × TransactionNames)

/-- `export type TeamKeyTransactions = Map<string, KeyTransactionPerProject>` -/
abbrev TeamKeyTransactions := List (String × KeyTransactionPerProject)

/-- One element of a response page's `keyed` array. -/
structure KeyedTransaction where
  project_id : String
  transaction : String
deriving Repr, DecidableEq

/-- One element of a response page's `data` array. -/
structure TeamKeyedData where
  team : String
  keyed : List KeyedTransaction
deriving Repr, DecidableEq

/-- One relation of a parsed `Link` response header, as produced by
`app/utils/parseLinkHeader` (that module is not under src/; its callers
only read the `cursor` and `results` fields of the `next` relation, so
the parsed object is embedded directly: `results` is `boolean | null`,
hence `Option Bool`). -/
structure LinkRel where
  cursor : String
  results : Option Bool
deriving Repr, DecidableEq

/-- The parsed `Link` header object; only the `next` relation is read by
`fetchTeamKeyTransactions`. -/
structure ParsedLinkHeader where
  next : Option LinkRel
deriving Repr, DecidableEq

/-- The error object of a failed request: `err.responseJSON?.detail`
collapsed to an optional string (`none` when `responseJSON` or `detail`
is absent). -/
structure ApiError where
  detail : Option String
deriving Repr, DecidableEq

/-- The server's answer to one page request of
`fetchTeamKeyTransactions`: either data plus the parsed `Link` header
(`none` when the response carries no/an empty `Link` header or no xhr),
or a rejection. -/
inductive PageResponse where
  | ok (data : List TeamKeyedData) (link : Option ParsedLinkHeader)
  | err (e : ApiError)
deriving Repr, DecidableEq

/-- `t('Error fetching team key transactions')` — the localized default
error message (the identity translation of the development locale). -/
def errorFetchingMsg : String := "Error fetching team key transactions"

/-- `keyed.reduce((kts, ...) => ..., new Map())`: build the per-project
map of transaction-name sets for one team. -/
def keyedReduce (keyed : List KeyedTransaction) : KeyTransactionPerProject :=
  keyed.foldl
    (fun kts e =>
      let kts := if jsHas kts e.project_id then kts else jsSet kts e.project_id []
      jsSet kts e.project_id (jsAdd ((jsGet kts e.project_id).getD []) e.transaction))
    []

/-- `data.forEach(({team, keyed}) => ... teamKeyTransactions.set(team, ...))`:
fold one response page's data into the accumulated map.  Each team entry
is set wholesale to the map built from that page's `keyed` array. -/
def applyPageData (data : List TeamKeyedData) (acc : TeamKeyTransactions) :
    TeamKeyTransactions :=
  data.foldl (fun acc td => jsSet acc td.team (keyedReduce td.keyed)) acc

/-- `paginationObject?.next?.results ?? false`. -/
def linkHasMore : Option ParsedLinkHeader → Bool
  | none => false
  | some pl =>
    match pl.next with
    | some rel => rel.results.getD false
    | none => false

/-- `paginationObject.next?.cursor`. -/
def linkNextCursor : Option ParsedLinkHeader → Option String
  | none => none
  | some pl => pl.next.map (fun rel => rel.cursor)

/-- Outcome of a run of `fetchTeamKeyTransactions`:
`success` is the resolved promise; `failure e msg` is the rejected
promise (`throw err` rethrows the same error `e`) together with the
string passed to `addErrorMessage` in the catch block; `exhausted` is a
model artifact for a request the given response list does not answer. -/
inductive FetchOutcome where
  | success (result : TeamKeyTransactions)
  | failure (e : ApiError) (shownMessage : String)
  | exhausted
deriving Repr, DecidableEq

/-- The `while (hasMore)` loop of `fetchTeamKeyTransactions`, one
iteration per consumed response.  The first component of the result is
the trace of requests issued, each recorded by the `cursor` it carries
(the `team` query parameter is the same on every request and omitted).
The iteration exits the loop both when the response carries no `Link`
header (`hasMore = false` in the `else` branch) and when
`paginationObject?.next?.results ?? false` is `false`; the two exits are
merged here since they run the same code afterwards. -/
def fetchLoop :
    List PageResponse → Option String → TeamKeyTransactions →
      List (Option String) × FetchOutcome
  | [], cursor, _ => ([cursor], .exhausted)
  | .err e :: _, cursor, _ =>
    ([cursor], .failure e (e.detail.getD errorFetchingMsg))
  | .ok data link :: rest, cursor, acc =>
    let acc2 := applyPageData data acc
    if linkHasMore link then
      let next := fetchLoop rest (linkNextCursor link) acc2
      (cursor :: next.1, next.2)
    else
      ([cursor], .success acc2)

/-- `fetchTeamKeyTransactions`: the loop starts with
`cursor = undefined` and an empty accumulated map. -/
def fetchTeamKeyTransactions (responses : List PageResponse) :
    List (Option String) × FetchOutcome :=
  fetchLoop responses none []

/-- Does this response let the loop continue (an `ok` page whose parsed
`next` relation has `results` true)? -/
def respContinues : PageResponse → Bool
  | .ok _ link => linkHasMore link
  | .err _ => false

/-- The cursor the loop uses for the request after this response. -/
def respNextCursor : PageResponse → Option String
  | .ok _ link => linkNextCursor link
  | .err _ => none

/-- The `data` array of an `ok` response. -/
def respData : PageResponse → List TeamKeyedData
  | .ok data _ => data
  | .err _ => []

/-! ### toggleKeyTransaction (src/unnamed/part_004) -/

/-- `response?.responseJSON?.non_field_errors` collapsed to an optional
string list. -/
structure ToggleError where
  non_field_errors : Option (List String)
deriving Repr, DecidableEq

inductive HttpMethod where
  | POST
  | DELETE
deriving Repr, DecidableEq

/-- The single request `toggleKeyTransaction` issues. -/
structure ToggleRequest where
  method : HttpMethod
  project : List String
  transaction : String
  team : Option (List String)
deriving Repr, DecidableEq

/-- Resolution of the promise returned by `toggleKeyTransaction`. -/
inductive ToggleOutcome where
  | resolved
  | rejected (e : ToggleError)
deriving Repr, DecidableEq

/-- Observable run of `toggleKeyTransaction`: the requests issued, the
indicator messages emitted (in order), whether `clearIndicators` ran,
and the promise's resolution. -/
structure ToggleRun where
  requests : List ToggleRequest
  messages : List String
  cleared : Bool
  outcome : ToggleOutcome
deriving Repr, DecidableEq

/-- `t('Saving changes…')`. -/
def savingChangesMsg : String := "Saving changes…"

/-- `t('Unable to update key transaction')`. -/
def unableUpdateMsg : String := "Unable to update key transaction"

/-- The message chosen by the catch branch of `toggleKeyTransaction`:
`non_field_errors[0]` when `non_field_errors` is a non-empty array whose
first element is truthy, otherwise the localized default. -/
def toggleErrMsg (e : ToggleError) : String :=
  match e.non_field_errors with
  | some (s :: _) => if s == "" then unableUpdateMsg else s
  | _ => unableUpdateMsg

/-- `toggleKeyTransaction`, as a function of the server's answer to its
one request.  `addLoadingMessage` always runs first; on resolution
`clearIndicators` runs; on rejection `addErrorMessage` runs with
`toggleErrMsg` and the promise stays rejected with the same error. -/
def toggleKeyTransaction (isKeyTransaction : Bool) (projects : List Int)
    (transactionName : String) (teamIds : Option (List String))
    (resp : Except ToggleError Unit) : ToggleRun :=
  let req : ToggleRequest :=
    { method := if isKeyTransaction then .DELETE else .POST
      project := projects.map toString
      transaction := transactionName
      team := teamIds }
  match resp with
  | .ok _ => ⟨[req], [savingChangesMsg], true, .resolved⟩
  | .error e => ⟨[req], [savingChangesMsg, toggleErrMsg e], false, .rejected e⟩

example :
    fetchTeamKeyTransactions
      [.ok [⟨"t1", [⟨"p1", "txa"⟩, ⟨"p1", "txb"⟩]⟩]
        (some ⟨some ⟨"c1", some true⟩⟩),
       .ok [⟨"t1", [⟨"p2", "txc"⟩]⟩] none] =
    ([none, some "c1"],
     .success [("t1", [("p2", ["txc"])])]) := by decide

example :
    fetchTeamKeyTransactions [.err ⟨some "boom"⟩] =
    ([none], .failure ⟨some "boom"⟩ "boom") := by decide

/-! ## Lemmas about the pagination loop -/

/-- Unfolding lemma: a continuing page prepends its cursor to the
request trace and recurses on the rest with the next relation's cursor. -/
theorem fetchLoop_cons_continue (r : PageResponse) (rest : List PageResponse)
    (cursor : Option String) (acc : TeamKeyTransactions)
    (h : respContinues r = true) :
    fetchLoop (r :: rest) cursor acc =
      let next := fetchLoop rest (respNextCursor r) (applyPageData (respData r) acc)
      (cursor :: next.1, next.2) := by
  cases r with
  | err e => simp [respContinues] at h
  | ok data link =>
    simp only [respContinues] at h
    simp [fetchLoop, h, respNextCursor, respData]

/-- Unfolding lemma: a stopping page ends the loop with success. -/
theorem fetchLoop_cons_stop (r : PageResponse) (rest : List PageResponse)
    (cursor : Option String) (acc : TeamKeyTransactions)
    (hok : ∃ data link, r = .ok data link) (h : respContinues r = false) :
    fetchLoop (r :: rest) cursor acc =
      ([cursor], .success (applyPageData (respData r) acc)) := by
  obtain ⟨data, link, rfl⟩ := hok
  simp only [respContinues] at h
  simp [fetchLoop, h, respData]

/-- Behaviour of the loop on a run of continuing pages followed by a
stopping page: it consumes exactly those pages, issues one request per
page with the chained cursors, and succeeds with the left fold of the
pages' data. -/
theorem fetchLoop_pagination (front : List PageResponse)
    (data : List TeamKeyedData) (link : Option ParsedLinkHeader)
    (rest : List PageResponse) (cursor : Option String)
    (acc : TeamKeyTransactions)
    (hfront : ∀ r ∈ front, respContinues r = true)
    (hstop : linkHasMore link = false) :
    fetchLoop (front ++ PageResponse.ok data link :: rest) cursor acc =
      (cursor :: front.map respNextCursor,
        .success ((front ++ [PageResponse.ok data link]).foldl
          (fun a r => applyPageData (respData r) a) acc)) := by
  induction front generalizing cursor acc with
  | nil =>
    simp [fetchLoop, hstop, respData]
  | cons f fs ih =>
    have hf : respContinues f = true := hfront f (by simp)
    have hfs : ∀ r ∈ fs, respContinues r = true := fun r hr => hfront r (by simp [hr])
    rw [List.cons_append, fetchLoop_cons_continue f _ cursor acc hf]
    simp only [ih (respNextCursor f) (applyPageData (respData f) acc) hfs,
      List.map_cons, List.cons_append, List.foldl_cons]

/-- Behaviour of the loop on a run of continuing pages followed by a
failing request: it issues one request per page up to and including the
failing one, shows the detail-or-default message, and rejects with the
same error. -/
theorem fetchLoop_err (front : List PageResponse) (e : ApiError)
    (rest : List PageResponse) (cursor : Option String)
    (acc : TeamKeyTransactions)
    (hfront : ∀ r ∈ front, respContinues r = true) :
    fetchLoop (front ++ PageResponse.err e :: rest) cursor acc =
      (cursor :: front.map respNextCursor,
        .failure e (e.detail.getD errorFetchingMsg)) := by
  induction front generalizing cursor acc with
  | nil => simp [fetchLoop]
  | cons f fs ih =>
    have hf : respContinues f = true := hfront f (by simp)
    have hfs : ∀ r ∈ fs, respContinues r = true := fun r hr => hfront r (by simp [hr])
    rw [List.cons_append, fetchLoop_cons_continue f _ cursor acc hf]
    simp only [ih (respNextCursor f) (applyPageData (respData f) acc) hfs,
      List.map_cons]

/-! ## Claim theorems (performance action creators) -/

/-- C1: every failing request inside `fetchTeamKeyTransactions` is
caught; `addErrorMessage` is called with `err.responseJSON?.detail` when
present and with the localized `'Error fetching team key transactions'`
otherwise (the `shownMessage` component of the outcome), and the same
error is rethrown to the caller (the outcome is a rejection carrying
`e` itself). -/
theorem fetch_failure_shows_detail_or_default_and_rethrows
    (front : List PageResponse) (e : ApiError) (rest : List PageResponse)
    (hfront : ∀ r ∈ front, respContinues r = true) :
    (fetchTeamKeyTransactions (front ++ PageResponse.err e :: rest)).2 =
      .failure e (match e.detail with
        | some detail => detail
        | none => errorFetchingMsg) := by
  unfold fetchTeamKeyTransactions
  rw [fetchLoop_err front e rest none [] hfront]
  cases e with
  | mk detail => cases detail <;> rfl

/-- Witness for C1 at a one-page run whose request fails with a server
`detail`. -/
theorem fetch_failure_shows_detail_or_default_and_rethrows_witness :
    (∀ r ∈ ([] : List PageResponse), respContinues r = true) ∧
      (fetchTeamKeyTransactions [PageResponse.err ⟨some "boom"⟩]).2 =
        .failure ⟨some "boom"⟩ "boom" :=
  ⟨by decide,
    fetch_failure_shows_detail_or_default_and_rethrows [] ⟨some "boom"⟩ []
      (by decide)⟩

/-- C2: `fetchTeamKeyTransactions` pages sequentially.  The first request
carries an undefined cursor; each response whose parsed `Link` header
has a `next` relation with `results` true leads to exactly one further
request carrying that relation's cursor; the loop stops at the first
response with no `Link` header or whose `next.results` is not true,
returning the left fold of the pages' data into the per-team map, and
never consumes anything beyond that page. -/
theorem fetch_paginates_sequentially_until_no_more
    (front : List PageResponse) (data : List TeamKeyedData)
    (link : Option ParsedLinkHeader) (rest : List PageResponse)
    (hfront : ∀ r ∈ front, respContinues r = true)
    (hstop : linkHasMore link = false) :
    fetchTeamKeyTransactions (front ++ PageResponse.ok data link :: rest) =
      (none :: front.map respNextCursor,
        .success ((front ++ [PageResponse.ok data link]).foldl
          (fun a r => applyPageData (respData r) a) [])) :=
  fetchLoop_pagination front data link rest none [] hfront hstop

/-- Witness for C2: a continuing page followed by a page with no `Link`
header; the trailing response is never consumed. -/
theorem fetch_paginates_sequentially_until_no_more_witness :
    (∀ r ∈ [PageResponse.ok [⟨"t1", [⟨"p1", "txa"⟩]⟩]
        (some ⟨some ⟨"c1", some true⟩⟩)], respContinues r = true) ∧
      linkHasMore none = false ∧
      fetchTeamKeyTransactions
          [PageResponse.ok [⟨"t1", [⟨"p1", "txa"⟩]⟩]
            (some ⟨some ⟨"c1", some true⟩⟩),
           PageResponse.ok [⟨"t2", [⟨"p2", "txb"⟩]⟩] none,
           PageResponse.err ⟨some "never requested"⟩] =
        ([none, some "c1"],
          .success [("t1", [("p1", ["txa"])]), ("t2", [("p2", ["txb"])])]) :=
  ⟨by decide, by decide,
    (fetch_paginates_sequentially_until_no_more
      [PageResponse.ok [⟨"t1", [⟨"p1", "txa"⟩]⟩]
        (some ⟨some ⟨"c1", some true⟩⟩)]
      [⟨"t2", [⟨"p2", "txb"⟩]⟩] none [PageResponse.err ⟨some "never requested"⟩]
      (by decide) (by decide)).trans (by decide)⟩

/-- C3: no failed request is ever retried.  When the request for a page
fails, the request trace ends at that request (`front.length + 1`
requests in total, nothing consumed from `rest`) and the function
rejects with that first error; and `toggleKeyTransaction` issues exactly
one request for any outcome, and on failure emits only the loading
message followed by one error notification (never `clearIndicators`) and
leaves the promise rejected with the same error. -/
theorem failed_requests_are_never_retried
    (front : List PageResponse) (e : ApiError) (rest : List PageResponse)
    (hfront : ∀ r ∈ front, respContinues r = true)
    (isKey : Bool) (projects : List Int) (txn : String)
    (teamIds : Option (List String)) (te : ToggleError)
    (resp : Except ToggleError Unit) :
    ((fetchTeamKeyTransactions (front ++ PageResponse.err e :: rest)).1 =
        none :: front.map respNextCursor ∧
      (fetchTeamKeyTransactions (front ++ PageResponse.err e :: rest)).1.length =
        front.length + 1 ∧
      (fetchTeamKeyTransactions (front ++ PageResponse.err e :: rest)).2 =
        .failure e (e.detail.getD errorFetchingMsg)) ∧
    (toggleKeyTransaction isKey projects txn teamIds resp).requests.length = 1 ∧
    (toggleKeyTransaction isKey projects txn teamIds (.error te)).messages =
      [savingChangesMsg, toggleErrMsg te] ∧
    (toggleKeyTransaction isKey projects txn teamIds (.error te)).cleared = false ∧
    (toggleKeyTransaction isKey projects txn teamIds (.error te)).outcome =
      .rejected te := by
  refine ⟨?_, ?_, rfl, rfl, rfl⟩
  · unfold fetchTeamKeyTransactions
    rw [fetchLoop_err front e rest none [] hfront]
    simp
  · cases resp <;> rfl

/-- Witness for C3 at a concrete failing page request and a concrete
failing toggle request. -/
theorem failed_requests_are_never_retried_witness :
    (∀ r ∈ ([] : List PageResponse), respContinues r = true) ∧
      (((fetchTeamKeyTransactions [PageResponse.err ⟨none⟩]).1 = [none] ∧
        (fetchTeamKeyTransactions [PageResponse.err ⟨none⟩]).1.length = 1 ∧
        (fetchTeamKeyTransactions [PageResponse.err ⟨none⟩]).2 =
          .failure ⟨none⟩ errorFetchingMsg) ∧
      (toggleKeyTransaction true [2] "tx" (some ["team1"])
        (.error ⟨some ["bad"]⟩)).requests.length = 1 ∧
      (toggleKeyTransaction true [2] "tx" (some ["team1"])
        (.error ⟨some ["bad"]⟩)).messages = [savingChangesMsg, "bad"] ∧
      (toggleKeyTransaction true [2] "tx" (some ["team1"])
        (.error ⟨some ["bad"]⟩)).cleared = false ∧
      (toggleKeyTransaction true [2] "tx" (some ["team1"])
        (.error ⟨some ["bad"]⟩)).outcome = .rejected ⟨some ["bad"]⟩) :=
  ⟨by decide,
    failed_requests_are_never_retried [] ⟨none⟩ [] (by decide) true [2] "tx"
      (some ["team1"]) ⟨some ["bad"]⟩ (.error ⟨some ["bad"]⟩)⟩

/-! ## Map lemmas -/

theorem jsGet_jsSet_self {α β : Type} [BEq α] [LawfulBEq α]
    (m : List (α × β)) (k : α) (v : β) :
    jsGet (jsSet m k v) k = some v := by
  induction m with
  | nil => simp [jsGet, jsSet]
  | cons e rest ih =>
    obtain ⟨k', v'⟩ := e
    by_cases h : k' = k
    · subst h
      simp [jsGet, jsSet]
    · have hb : (k' == k) = false := by simpa using h
      simp [jsGet, jsSet, hb, ih]

theorem jsGet_jsSet_ne {α β : Type} [BEq α] [LawfulBEq α]
    (m : List (α × β)) (k k' : α) (v : β) (h : ¬k = k') :
    jsGet (jsSet m k v) k' = jsGet m k' := by
  induction m with
  | nil =>
    have hb : (k == k') = false := by simpa using h
    simp [jsGet, jsSet, hb]
  | cons e rest ih =>
    obtain ⟨k₀, v₀⟩ := e
    by_cases h₀ : k₀ = k
    · subst h₀
      have hb : (k₀ == k') = false := by simpa using h
      simp [jsGet, jsSet, hb]
    · have hb : (k₀ == k) = false := by simpa using h₀
      by_cases h₁ : k₀ = k'
      · subst h₁
        simp [jsGet, jsSet, hb]
      · have hb₁ : (k₀ == k') = false := by simpa using h₁
        simp [jsGet, jsSet, hb, hb₁, ih]

/-- The `keyed` array of the last element of a page's `data` array whose
`team` equals `t`, if any. -/
def lastOcc (data : List TeamKeyedData) (t : String) :
    Option (List KeyedTransaction) :=
  data.foldl (fun r td => if td.team == t then some td.keyed else r) none

theorem lastOcc_foldl (data : List TeamKeyedData) (t : String)
    (i : Option (List KeyedTransaction)) :
    data.foldl (fun r td => if td.team == t then some td.keyed else r) i =
      match lastOcc data t with
      | some ks => some ks
      | none => i := by
  induction data generalizing i with
  | nil => rfl
  | cons td rest ih =>
    have h2 : lastOcc (td :: rest) t =
        match lastOcc rest t with
        | some ks => some ks
        | none => if td.team == t then some td.keyed else none := by
      show List.foldl _ (if td.team == t then some td.keyed else none) rest = _
      exact ih _
    rw [List.foldl_cons, ih, h2]
    rcases lastOcc rest t with _ | ks
    · cases h : (td.team == t) <;> simp [h]
    · rfl

/-- Characterization of one page's effect on the accumulated map: the
entry for a team present in the page's data is set wholesale to the
`keyedReduce` of that team's last occurrence in the page; teams absent
from the page keep their accumulated entry. -/
theorem applyPageData_jsGet (data : List TeamKeyedData)
    (acc : TeamKeyTransactions) (t : String) :
    jsGet (applyPageData data acc) t =
      match lastOcc data t with
      | some ks => some (keyedReduce ks)
      | none => jsGet acc t := by
  induction data generalizing acc with
  | nil => rfl
  | cons td rest ih =>
    have h1 : applyPageData (td :: rest) acc =
        applyPageData rest (jsSet acc td.team (keyedReduce td.keyed)) := rfl
    have h2 : lastOcc (td :: rest) t =
        match lastOcc rest t with
        | some ks => some ks
        | none => if td.team == t then some td.keyed else none := by
      show List.foldl _ (if td.team == t then some td.keyed else none) rest = _
      exact lastOcc_foldl rest t _
    rw [h1, ih (jsSet acc td.team (keyedReduce td.keyed)), h2]
    rcases lastOcc rest t with _ | ks
    · by_cases h : td.team = t
      · have hb : (td.team == t) = true := by simpa using h
        subst h
        simp [hb, jsGet_jsSet_self]
      · have hb : (td.team == t) = false := by simpa using h
        simp [hb, jsGet_jsSet_ne acc td.team t _ h]
    · rfl

/-- C9: when a team key occurs in more than one fetched page, each later
page's data overwrites the team's entry wholesale: the final entry for
that team is exactly `keyedReduce` of the team's last occurrence in the
later page, independent of whatever the earlier page contributed. -/
theorem later_page_overwrites_team_entry_wholesale
    (p1 p2 : List TeamKeyedData) (acc : TeamKeyTransactions) (t : String)
    (k1 k2 : List KeyedTransaction)
    (_h1 : lastOcc p1 t = some k1) (h2 : lastOcc p2 t = some k2) :
    jsGet (applyPageData p2 (applyPageData p1 acc)) t =
      some (keyedReduce k2) := by
  rw [applyPageData_jsGet, h2]

/-- Witness for C9: team `t1` appears on both pages; after both pages
only the second page's transactions remain (no merge with `"a"`). -/
theorem later_page_overwrites_team_entry_wholesale_witness :
    lastOcc [⟨"t1", [⟨"p", "a"⟩]⟩] "t1" = some [⟨"p", "a"⟩] ∧
      lastOcc [⟨"t1", [⟨"q", "b"⟩]⟩] "t1" = some [⟨"q", "b"⟩] ∧
      jsGet (applyPageData [⟨"t1", [⟨"q", "b"⟩]⟩]
          (applyPageData [⟨"t1", [⟨"p", "a"⟩]⟩] [])) "t1" =
        some [("q", ["b"])] :=
  ⟨by decide, by decide,
    later_page_overwrites_team_entry_wholesale
      [⟨"t1", [⟨"p", "a"⟩]⟩] [⟨"t1", [⟨"q", "b"⟩]⟩] [] "t1"
      [⟨"p", "a"⟩] [⟨"q", "b"⟩] (by decide) (by decide)⟩

/-! ## app/components/performance/teamKeyTransactionsManager.tsx -/

structure Team where
  id : String
  isMember : Bool
deriving Repr, DecidableEq

inductive ToggleAction where
  | key
  | unkey
deriving Repr, DecidableEq

/-- `SelectionBase`. -/
structure SelectionBase where
  action : ToggleAction
  project : Int
  transactionName : String
deriving Repr, DecidableEq

/-- `TeamSelection = MyTeamSelection | TeamIdSelection` (the `type`
discriminant becomes the constructor). -/
inductive TeamSelection where
  | myTeams (base : SelectionBase)
  | byId (base : SelectionBase) (teamId : String)
deriving Repr, DecidableEq

def TeamSelection.base : TeamSelection → SelectionBase
  | .myTeams b => b
  | .byId b _ => b

/-- `isMyTeamSelection(selection) ? this.toggleKeyTransactionForMyTeams()
: this.toggleKeyTransactionForTeam(selection)`. -/
def selectionTeamIds (teams : List Team) : TeamSelection → List String
  | .myTeams _ => (teams.filter (fun tm => tm.isMember)).map (fun tm => tm.id)
  | .byId _ teamId => [teamId]

/-- The body of the `for (const teamId of teamIds)` loop of
`handleToggleKeyTransaction` for one team id: ensure the team map and
the per-project set exist, then delete (when the transaction was keyed)
or add the transaction name. -/
def toggleMutateTeam (project txn : String) (isKeyTransaction : Bool)
    (tkt : TeamKeyTransactions) (teamId : String) : TeamKeyTransactions :=
  let tkt := if jsHas tkt teamId then tkt else jsSet tkt teamId []
  let team := (jsGet tkt teamId).getD []
  let team := if jsHas team project then team else jsSet team project []
  let names := (jsGet team project).getD []
  let names := if isKeyTransaction then jsDelete names txn else jsAdd names txn
  jsSet tkt teamId (jsSet team project names)

/-- The whole `for` loop: the optimistic in-place mutation of the
state's map performed before `toggleKeyTransaction` is awaited. -/
def applyToggleMutation (tkt : TeamKeyTransactions) (teamIds : List String)
    (project : Int) (txn : String) (isKeyTransaction : Bool) :
    TeamKeyTransactions :=
  teamIds.foldl (toggleMutateTeam (toString project) txn isKeyTransaction) tkt

/-- The component state fields `handleToggleKeyTransaction` touches. -/
structure ManagerState where
  teamKeyTransactions : TeamKeyTransactions
  error : Option String
deriving Repr, DecidableEq

/-- `handleToggleKeyTransaction`, as a function of the toggle request's
outcome.  `const newTeamKeyTransactions = teamKeyTransactions` aliases
the state's map (the `TODO: clone` is not done) and the `for` loop
mutates it in place before the `await`; hence the state's map holds the
mutated value whichever branch runs: the `try` branch's
`setState(teamKeyTransactions)` stores the (mutated) map, and the
`catch` branch's `setState` writes only `error`, leaving the state's
(already mutated) map in place. -/
def handleToggleKeyTransaction (teams : List Team) (st : ManagerState)
    (sel : TeamSelection) (resp : Except ApiError Unit) : ManagerState :=
  let isKeyTransaction := sel.base.action == ToggleAction.unkey
  let teamIds := selectionTeamIds teams sel
  let mutated := applyToggleMutation st.teamKeyTransactions teamIds
    sel.base.project sel.base.transactionName isKeyTransaction
  match resp with
  | .ok _ => { st with teamKeyTransactions := mutated }
  | .error e => { teamKeyTransactions := mutated, error := e.detail }

/-- `getCounts`: per team, the sum of the sizes of its per-project
transaction-name sets. -/
def getCounts (tkt : TeamKeyTransactions) : List (String × Nat) :=
  tkt.foldl
    (fun counts entry =>
      jsSet counts entry.1 (entry.2.foldl (fun c pe => c + pe.2.length) 0))
    []

/-- The body of the `teamKeyTransactions.forEach` in `getKeyedTeams`:
add the team when `keyTransactions.get(project)?.has(transactionName)`. -/
def keyedTeamsStep (project txn : String) (keyedTeams : List String)
    (entry : String × KeyTransactionPerProject) : List String :=
  if ((jsGet entry.2 project).map (fun s => s.contains txn)).getD false then
    jsAdd keyedTeams entry.1
  else keyedTeams

/-- `getKeyedTeams`: the set of teams for which the given transaction of
the given project is keyed. -/
def getKeyedTeams (tkt : TeamKeyTransactions) (project txn : String) :
    List String :=
  tkt.foldl (keyedTeamsStep project txn) []

/-- The transaction-name set stored for a team and project (empty when
either level is absent), the observable the claims read. -/
def lookupNames (tkt : TeamKeyTransactions) (teamId project : String) :
    TransactionNames :=
  (jsGet ((jsGet tkt teamId).getD []) project).getD []

/-! ## Lemmas about the optimistic toggle mutation -/

theorem mem_jsAdd_self {α : Type} [BEq α] [LawfulBEq α] (s : List α) (a : α) :
    a ∈ jsAdd s a := by
  unfold jsAdd
  split
  · next h => exact List.elem_iff.mp h
  · exact List.mem_append_right s (List.mem_singleton.mpr rfl)

theorem mem_jsAdd_of_mem {α : Type} [BEq α] [LawfulBEq α] (s : List α)
    (a b : α) (h : b ∈ s) : b ∈ jsAdd s a := by
  unfold jsAdd
  split
  · exact h
  · exact List.mem_append_left _ h

theorem jsGet_mem {α β : Type} [BEq α] [LawfulBEq α] (m : List (α × β))
    (k : α) (v : β) (h : jsGet m k = some v) : (k, v) ∈ m := by
  induction m with
  | nil => simp [jsGet] at h
  | cons e rest ih =>
    obtain ⟨k', v'⟩ := e
    by_cases hk : k' = k
    · subst hk
      have hb : (k' == k') = true := by simp
      simp only [jsGet, hb, if_true, Option.some.injEq] at h
      subst h
      exact List.mem_cons_self _ _
    · have hb : (k' == k) = false := by simpa using hk
      simp only [jsGet, hb, Bool.false_eq_true, if_false] at h
      exact List.mem_cons_of_mem _ (ih h)

/-- A key-toggle (`isKeyTransaction = false`) for a team id puts the
transaction name into that team's per-project set. -/
theorem toggleMutateTeam_adds (tkt : TeamKeyTransactions)
    (tid project txn : String) :
    txn ∈ lookupNames (toggleMutateTeam project txn false tkt tid) tid project := by
  unfold toggleMutateTeam lookupNames
  simp only [Bool.false_eq_true, if_false, jsGet_jsSet_self, Option.getD_some]
  exact mem_jsAdd_self _ _

/-- Mutating some other team id leaves a team's per-project set
untouched. -/
theorem toggleMutateTeam_lookup_other (tkt : TeamKeyTransactions)
    (tid tid' project txn : String) (isKey : Bool) (h : ¬tid' = tid) :
    lookupNames (toggleMutateTeam project txn isKey tkt tid') tid project =
      lookupNames tkt tid project := by
  unfold toggleMutateTeam lookupNames
  rw [jsGet_jsSet_ne _ tid' tid _ h]
  split
  · rfl
  · rw [jsGet_jsSet_ne _ tid' tid _ h]

/-- One loop step never removes the transaction name during a key-toggle. -/
theorem toggleMutateTeam_preserves (tkt : TeamKeyTransactions)
    (tid tid' project txn : String)
    (h : txn ∈ lookupNames tkt tid project) :
    txn ∈ lookupNames (toggleMutateTeam project txn false tkt tid') tid project := by
  by_cases he : tid' = tid
  · subst he
    exact toggleMutateTeam_adds tkt tid' project txn
  · rw [toggleMutateTeam_lookup_other tkt tid tid' project txn false he]
    exact h

/-- The whole optimistic mutation keys the transaction for every
affected team id. -/
theorem applyToggleMutation_preserves (project txn : String)
    (teamIds : List String) (tkt : TeamKeyTransactions) (tid : String)
    (h : txn ∈ lookupNames tkt tid project) :
    txn ∈ lookupNames
      (teamIds.foldl (toggleMutateTeam project txn false) tkt) tid project := by
  induction teamIds generalizing tkt with
  | nil => exact h
  | cons t' rest ih =>
    exact ih _ (toggleMutateTeam_preserves tkt tid t' project txn h)

theorem applyToggleMutation_keys (tkt : TeamKeyTransactions)
    (teamIds : List String) (project : Int) (txn : String) (tid : String)
    (h : tid ∈ teamIds) :
    txn ∈ lookupNames (applyToggleMutation tkt teamIds project txn false)
      tid (toString project) := by
  unfold applyToggleMutation
  revert h
  induction teamIds generalizing tkt with
  | nil => intro h; cases h
  | cons t' rest ih =>
    intro h
    rcases List.mem_cons.mp h with rfl | hmem
    · exact applyToggleMutation_preserves (toString project) txn rest _ tid
        (toggleMutateTeam_adds tkt tid (toString project) txn)
    · exact ih _ hmem

/-- Every entry of the map that keys the transaction is reported by
`getKeyedTeams` (its fold only ever adds teams). -/
theorem mem_getKeyedTeams_aux (project txn : String)
    (l : TeamKeyTransactions) (acc : List String) (tid : String)
    (h : tid ∈ acc ∨ ∃ team, (tid, team) ∈ l ∧
      ((jsGet team project).map (fun s => s.contains txn)).getD false = true) :
    tid ∈ l.foldl (keyedTeamsStep project txn) acc := by
  induction l generalizing acc with
  | nil =>
    rcases h with h | ⟨team, hmem, _⟩
    · exact h
    · cases hmem
  | cons e rest ih =>
    rw [List.foldl_cons]
    rcases h with h | ⟨team, hmem, hpred⟩
    · refine ih _ (Or.inl ?_)
      unfold keyedTeamsStep
      split
      · exact mem_jsAdd_of_mem _ _ _ h
      · exact h
    · rcases List.mem_cons.mp hmem with heq | hrest
      · subst heq
        refine ih _ (Or.inl ?_)
        show tid ∈ if ((jsGet team project).map (fun s => s.contains txn)).getD false = true
            then jsAdd acc tid else acc
        rw [if_pos hpred]
        exact mem_jsAdd_self acc tid
      · exact ih _ (Or.inr ⟨team, hrest, hpred⟩)

theorem mem_getKeyedTeams_of_lookup (tkt : TeamKeyTransactions)
    (project txn tid : String)
    (h : txn ∈ lookupNames tkt tid project) :
    tid ∈ getKeyedTeams tkt project txn := by
  unfold lookupNames at h
  unfold getKeyedTeams
  rcases hg : jsGet tkt tid with _ | team
  · rw [hg] at h
    simp [jsGet] at h
  · rw [hg] at h
    simp only [Option.getD_some] at h
    rcases hp : jsGet team project with _ | s
    · rw [hp] at h
      simp at h
    · rw [hp] at h
      simp only [Option.getD_some] at h
      refine mem_getKeyedTeams_aux project txn tkt [] tid
        (Or.inr ⟨team, jsGet_mem tkt tid team hg, ?_⟩)
      rw [hp]
      simpa using List.elem_iff.mpr h

/-- C10: `handleToggleKeyTransaction` mutates the in-memory map in place
before awaiting the request, and the catch branch only records the error
message: the state's map after a failed toggle equals the optimistically
mutated map (exactly what a successful toggle would store, never the
original), the error field is set to `err.responseJSON?.detail ?? null`,
and for a key-toggle every affected team is reported as keyed by
`getKeyedTeams` even though the request failed. -/
theorem failed_toggle_is_not_rolled_back (teams : List Team)
    (st : ManagerState) (sel : TeamSelection) (e : ApiError) (tid : String)
    (hact : sel.base.action = ToggleAction.key)
    (hmem : tid ∈ selectionTeamIds teams sel) :
    (handleToggleKeyTransaction teams st sel (.error e)).teamKeyTransactions =
      applyToggleMutation st.teamKeyTransactions (selectionTeamIds teams sel)
        sel.base.project sel.base.transactionName
        (sel.base.action == ToggleAction.unkey) ∧
    (handleToggleKeyTransaction teams st sel (.error e)).teamKeyTransactions =
      (handleToggleKeyTransaction teams st sel (.ok ())).teamKeyTransactions ∧
    (handleToggleKeyTransaction teams st sel (.error e)).error = e.detail ∧
    tid ∈ getKeyedTeams
      (handleToggleKeyTransaction teams st sel (.error e)).teamKeyTransactions
      (toString sel.base.project) sel.base.transactionName := by
  refine ⟨rfl, rfl, rfl, ?_⟩
  have hkey : (sel.base.action == ToggleAction.unkey) = false := by
    rw [hact]
    rfl
  show tid ∈ getKeyedTeams
    (applyToggleMutation st.teamKeyTransactions (selectionTeamIds teams sel)
      sel.base.project sel.base.transactionName
      (sel.base.action == ToggleAction.unkey))
    (toString sel.base.project) sel.base.transactionName
  rw [hkey]
  exact mem_getKeyedTeams_of_lookup _ _ _ _
    (applyToggleMutation_keys st.teamKeyTransactions _ _ _ tid hmem)

/-- Witness for C10: keying transaction `tx` for team `team1` fails on
the server, yet the new state stores the mutated map and reports `tx`
as keyed for `team1`. -/
theorem failed_toggle_is_not_rolled_back_witness :
    (TeamSelection.byId ⟨ToggleAction.key, 2, "tx"⟩ "team1").base.action =
        ToggleAction.key ∧
      "team1" ∈ selectionTeamIds [⟨"team1", true⟩]
        (TeamSelection.byId ⟨ToggleAction.key, 2, "tx"⟩ "team1") ∧
      ((handleToggleKeyTransaction [⟨"team1", true⟩] ⟨[], none⟩
          (TeamSelection.byId ⟨ToggleAction.key, 2, "tx"⟩ "team1")
          (.error ⟨some "fail"⟩)) =
        ⟨[("team1", [("2", ["tx"])])], some "fail"⟩) ∧
      "team1" ∈ getKeyedTeams
        (handleToggleKeyTransaction [⟨"team1", true⟩] ⟨[], none⟩
          (TeamSelection.byId ⟨ToggleAction.key, 2, "tx"⟩ "team1")
          (.error ⟨some "fail"⟩)).teamKeyTransactions "2" "tx" :=
  ⟨by decide, by decide, by decide,
    (failed_toggle_is_not_rolled_back [⟨"team1", true⟩] ⟨[], none⟩
      (TeamSelection.byId ⟨ToggleAction.key, 2, "tx"⟩ "team1")
      ⟨some "fail"⟩ "team1" (by decide) (by decide)).2.2.2⟩

/-! ## app/views/issueList/createSavedSearchModal.tsx -/

/-- Modelled from the spec: the `IssueSortOptions` enum lives in
`app/views/issueList/utils`, which is not under src/; the modal treats
its members as opaque distinct sort keys, embedded here as the string
constants the modal lists. -/
def sortDate : String := "date"

def sortNew : String := "new"

def sortFreq : String := "freq"

def sortPriority : String := "priority"

def sortUser : String := "user"

def sortTrend : String := "trend"

/-- `DEFAULT_SORT_OPTIONS`. -/
def DEFAULT_SORT_OPTIONS : List String :=
  [sortDate, sortNew, sortFreq, sortPriority, sortUser]

/-- `sortOptions()`: the defaults, plus `TREND` when the organization
has the `issue-list-trend-sort` feature. -/
def sortOptions (features : List String) : List String :=
  if features.contains "issue-list-trend-sort" then
    DEFAULT_SORT_OPTIONS ++ [sortTrend]
  else DEFAULT_SORT_OPTIONS

/-- `validateSortOption`: keep a sort found among the options, fall back
to `IssueSortOptions.DATE` otherwise (also for `null`/`undefined`). -/
def validateSortOption (features : List String) (sort : Option String) :
    String :=
  match sort with
  | some s => if (sortOptions features).contains s then s else sortDate
  | none => sortDate

/-- The arguments `handleSubmit` hands to `createSavedSearch` (the
`api`/`orgSlug` channel arguments omitted). -/
structure SavedSearchRequest where
  name : String
  query : String
  sort : String
deriving Repr, DecidableEq

/-- `handleSubmit`: `createSavedSearch(api, organization.slug,
data.name, data.query, this.validateSortOption(data.sort))`. -/
def savedSearchSubmit (features : List String) (name query : String)
    (sort : Option String) : SavedSearchRequest :=
  ⟨name, query, validateSortOption features sort⟩

/-- C4 counterexample: the user-supplied sort `inbox` is not among the
modal's options, and the submitted request carries
`IssueSortOptions.DATE` instead of the supplied value — the modal does
enforce a client-side invariant on the sort beyond remote validation. -/
theorem savedSearch_sort_changed_counterexample :
    (savedSearchSubmit [] "n" "q" (some "inbox")).sort ≠ "inbox" ∧
      (savedSearchSubmit [] "n" "q" (some "inbox")).sort = sortDate := by
  decide

/-- C4 (amended): the saved-search request carries the supplied sort
unchanged exactly when it is one of the modal's sort options (the five
defaults, plus `trend` with the `issue-list-trend-sort` feature); any
other supplied sort — and an absent one — is replaced by
`IssueSortOptions.DATE`. -/
theorem savedSearch_sort_validated (features : List String)
    (name query s : String) :
    ((sortOptions features).contains s = true →
        (savedSearchSubmit features name query (some s)).sort = s) ∧
      ((sortOptions features).contains s = false →
        (savedSearchSubmit features name query (some s)).sort = sortDate) ∧
      (savedSearchSubmit features name query none).sort = sortDate := by
  refine ⟨fun h => ?_, fun h => ?_, rfl⟩ <;>
  · show (if (sortOptions features).contains s = true then s else sortDate) = _
    rw [h]
    simp

/-- Witness for C4 (amended): `freq` is an option and is kept; `inbox`
is not and becomes `date`. -/
theorem savedSearch_sort_validated_witness :
    ((sortOptions []).contains "freq" = true ∧
        (savedSearchSubmit [] "n" "q" (some "freq")).sort = "freq") ∧
      ((sortOptions []).contains "inbox" = false ∧
        (savedSearchSubmit [] "n" "q" (some "inbox")).sort = sortDate) :=
  ⟨⟨by decide, (savedSearch_sort_validated [] "n" "q" "freq").1 (by decide)⟩,
    ⟨by decide, (savedSearch_sort_validated [] "n" "q" "inbox").2.1 (by decide)⟩⟩

/-! ## app/components/modals/debugFileCustomRepository/http.tsx -/

/-- `InitialData` of the modal; a stored `password` arrives from the
server as the object `'hidden-secret': boolean`, carried here as that
boolean. -/
structure HttpInitialData where
  name : String
  url : String
  layoutType : String
  layoutCasing : String
  username : Option String
  password : Option Bool
deriving Repr, DecidableEq

/-- `Data`: the modal's form state. `name`/`url` are `Partial` (can be
`undefined` when no `initialData` prop was given), and `password`
distinguishes `undefined` (`none`: password unchanged) from an entered
string. -/
structure HttpFormData where
  name : Option String
  url : Option String
  username : Option String
  password : Option String
  layoutType : String
  layoutCasing : String
deriving Repr, DecidableEq

/-- The `initialData` object literal built (afresh) on each render from
the props: the password field is `undefined` when the stored password is
the hidden-secret object (`typeof ... === 'object'`) and `''` otherwise;
layout fields default to `'native'`/`'default'`. -/
def initialFormData (p : Option HttpInitialData) : HttpFormData where
  name := p.map (fun i => i.name)
  url := p.map (fun i => i.url)
  username := p.bind (fun i => i.username)
  password := if (p.bind (fun i => i.password)).isSome then none else some ""
  layoutType := (p.map (fun i => i.layoutType)).getD "native"
  layoutCasing := (p.map (fun i => i.layoutCasing)).getD "default"

/-- The `setData` calls the rendered inputs can make (each `onChange`
spreads the previous state into a fresh object literal;
`handleClearPassword` sets the password to `''`). -/
inductive HttpEvent where
  | setName (s : String)
  | setUrl (s : String)
  | setUsername (s : String)
  | setPassword (s : String)
  | clearPassword
  | setLayoutType (s : String)
  | setLayoutCasing (s : String)
deriving Repr, DecidableEq

/-- Field effect of one `setData` call. -/
def applyHttpEvent (d : HttpFormData) : HttpEvent → HttpFormData
  | .setName s => { d with name := some s }
  | .setUrl s => { d with url := some s }
  | .setUsername s => { d with username := some s }
  | .setPassword s => { d with password := some s }
  | .clearPassword => { d with password := some "" }
  | .setLayoutType s => { d with layoutType := s }
  | .setLayoutCasing s => { d with layoutCasing := s }

/-- The `data` state after a history of `setData` calls since mount. -/
def httpFormState (p : Option HttpInitialData) (events : List HttpEvent) :
    HttpFormData :=
  events.foldl applyHttpEvent (initialFormData p)

/-- JavaScript falsiness of an optional string (`undefined` and `''`). -/
def falsyStr : Option String → Bool
  | none => true
  | some s => s == ""

/-- `isFormInvalid()`: `!data.name || !data.url`. -/
def isFormInvalid (d : HttpFormData) : Bool :=
  falsyStr d.name || falsyStr d.url

/-- `formUnchanged()`: `data === initialData` — JavaScript REFERENCE
equality between the current `data` state object and this render's
`initialData` object literal.  `useState(initialData)` stores the very
object built on the first render, and every `setData` call replaces the
state by a fresh object literal; two distinct objects are never `===`,
whatever their field values.  Object identity is therefore tracked here
by the `setData` history: the comparison is true exactly when no
`setData` has happened since mount. -/
def formUnchanged (events : List HttpEvent) : Bool :=
  events.isEmpty

/-- The `Save changes` button's `disabled` prop:
`isFormInvalid() || formUnchanged()`. -/
def saveDisabled (p : Option HttpInitialData) (events : List HttpEvent) :
    Bool :=
  isFormInvalid (httpFormState p events) || formUnchanged events

/-- The `password` field of `SubmitData`: either the marker object
`'hidden-secret': true` or a plain string. -/
inductive SubmitPassword where
  | hiddenSecret (b : Bool)
  | plain (s : String)
deriving Repr, DecidableEq

/-- `SubmitData` (without the generated `id`). -/
structure HttpSubmitData where
  name : Option String
  url : Option String
  username : Option String
  layoutType : String
  layoutCasing : String
  password : Option SubmitPassword
deriving Repr, DecidableEq

/-- `handleSubmit()`: the submitted password is the hidden-secret marker
when the field is `undefined`, omitted (`undefined`) when the entered
string is falsy, and the entered string otherwise. -/
def httpHandleSubmit (d : HttpFormData) : HttpSubmitData where
  name := d.name
  url := d.url
  username := d.username
  layoutType := d.layoutType
  layoutCasing := d.layoutCasing
  password :=
    match d.password with
    | none => some (.hiddenSecret true)
    | some s => if s == "" then none else some (.plain s)

/-- C5 counterexample: with a valid update-mode form, typing `x` into
the username and then restoring `admin` leaves every field equal to its
initial value, yet the `Save changes` button is NOT disabled: the claim
says `disabled` holds exactly when the form is invalid or the data is
unchanged from its initial values, but `formUnchanged` compares object
identity (`===`), not values, so it is false after any `setData`. -/
theorem http_saveDisabled_value_equality_counterexample :
    httpFormState
        (some ⟨"repo", "https://example.com", "native", "default",
          some "admin", none⟩)
        [.setUsername "x", .setUsername "admin"] =
      initialFormData
        (some ⟨"repo", "https://example.com", "native", "default",
          some "admin", none⟩) ∧
      isFormInvalid
        (httpFormState
          (some ⟨"repo", "https://example.com", "native", "default",
            some "admin", none⟩)
          [.setUsername "x", .setUsername "admin"]) = false ∧
      saveDisabled
        (some ⟨"repo", "https://example.com", "native", "default",
          some "admin", none⟩)
        [.setUsername "x", .setUsername "admin"] = false := by
  decide

/-- C5 (amended): `Save changes` is disabled exactly when the form is
invalid (the name or the url field is `undefined`/empty) or no `setData`
call has happened since mount (the data object is still the initial
object; restoring the initial values does not re-disable the button);
submitting sends the `'hidden-secret': true` marker when the password
field is `undefined`, omits the password when it is the empty string,
and sends the entered string otherwise. -/
theorem http_saveDisabled_and_password_submit (p : Option HttpInitialData)
    (events : List HttpEvent) (d : HttpFormData) :
    (saveDisabled p events = true ↔
        falsyStr (httpFormState p events).name = true ∨
        falsyStr (httpFormState p events).url = true ∨ events = []) ∧
      (httpHandleSubmit d).password =
        (match d.password with
          | none => some (.hiddenSecret true)
          | some s => if s = "" then none else some (.plain s)) := by
  constructor
  · simp only [saveDisabled, isFormInvalid, formUnchanged, Bool.or_eq_true,
      List.isEmpty_iff]
    rw [or_assoc]
  · show (match d.password with
        | none => some (SubmitPassword.hiddenSecret true)
        | some s => if s == "" then none else some (.plain s)) = _
    rcases d.password with _ | s
    · rfl
    · by_cases h : s = ""
      · subst h
        simp
      · have hb : (s == "") = false := by simpa using h
        show (if (s == "") = true then none else some (SubmitPassword.plain s)) =
          (if s = "" then none else some (SubmitPassword.plain s))
        rw [hb]
        simp [h]

/-! ## GlobalSelectionHeader (src/unnamed/part_008) -/

/-- Modelled from the documented semantics of `lodash/debounce` (a
third-party library, not part of this repository): `debounce(f, wait)`
with the default options invokes `f` on the trailing edge only.  Given
the call times in milliseconds, `f` runs at `c + wait` exactly for the
calls `c` not followed by another call strictly within the wait window
(any such later call resets the timer). -/
def debounceFires (wait : Nat) (calls : List Nat) : List Nat :=
  (calls.filter
    (fun c => !(calls.any (fun c2 => c < c2 && c2 - c < wait)))).map
    (fun c => c + wait)

/-- One `onSearch(searchQuery, options)` call. -/
structure SearchDispatch where
  query : String
  append : Bool
deriving Repr, DecidableEq

/-- One (debounce-fired) run of `searchDispatcher`'s body: given the
stored `state.searchQuery` and the `(searchQuery, options)` arguments,
it sets `options.append = true` when the query repeats the stored one,
calls `onSearch`, and stores the dispatched query via `setState`.
Returns the `onSearch` call and the new stored query. -/
def searchDispatcherStep (storedQuery searchQuery : String)
    (optionsAppend : Bool) : SearchDispatch × String :=
  (⟨searchQuery,
      if storedQuery == searchQuery then true else optionsAppend⟩,
    searchQuery)

/-- C6: the search dispatcher is trailing-debounced at 200 ms — any two
dispatch times are at least 200 ms apart — and each dispatched search
(called by `onFilterChange` with `append: false`) carries `append = true`
exactly when the query equals the stored `searchQuery`, and always
updates the stored query to the dispatched one. -/
theorem search_debounce_window_and_append_on_repeat
    (calls : List Nat) (t1 t2 : Nat) (stored q : String)
    (h1 : t1 ∈ debounceFires 200 calls) (h2 : t2 ∈ debounceFires 200 calls)
    (hlt : t1 < t2) :
    200 ≤ t2 - t1 ∧
      (searchDispatcherStep stored q false).1.query = q ∧
      ((searchDispatcherStep stored q false).1.append = true ↔ stored = q) ∧
      (searchDispatcherStep stored q false).2 = q := by
  refine ⟨?_, rfl, ?_, rfl⟩
  · obtain ⟨c1, hc1, ht1⟩ := List.mem_map.mp h1
    obtain ⟨c2, hc2, ht2⟩ := List.mem_map.mp h2
    rw [List.mem_filter] at hc1 hc2
    have hq := hc1.2
    simp only [Bool.not_eq_true', List.any_eq_false, Bool.and_eq_true,
      decide_eq_true_eq, not_and] at hq
    have hneed := hq c2 hc2.1
    omega
  · show (if (stored == q) = true then true else false) = true ↔ stored = q
    by_cases h : stored = q
    · have hb : (stored == q) = true := by simpa using h
      simp [hb, h]
    · have hb : (stored == q) = false := by simpa using h
      simp [hb, h]

/-- Witness for C6: calls at 0 ms and 300 ms fire at 200 ms and 500 ms,
300 ms apart; a repeated query `alpha` is dispatched with
`append = true`. -/
theorem search_debounce_window_and_append_on_repeat_witness :
    (200 ∈ debounceFires 200 [0, 300]) ∧
      (500 ∈ debounceFires 200 [0, 300]) ∧ 200 < 500 ∧
      (200 ≤ 500 - 200 ∧
        (searchDispatcherStep "alpha" "alpha" false).1.query = "alpha" ∧
        ((searchDispatcherStep "alpha" "alpha" false).1.append = true ↔
          "alpha" = "alpha") ∧
        (searchDispatcherStep "alpha" "alpha" false).2 = "alpha") :=
  ⟨by decide, by decide, by decide,
    search_debounce_window_and_append_on_repeat [0, 300] 200 500
      "alpha" "alpha" (by decide) (by decide) (by decide)⟩

/-! ## Chart legend (src/unnamed/part_007) -/

/-- Is this series name user-disableable through the legend?
`['Releases', 'Other'].includes(key) || disableableSeries.includes(key)`. -/
def legendDisableable (disableableSeries : List String) (key : String) :
    Bool :=
  (["Releases", "Other"].contains key) || disableableSeries.contains key

/-- One step of the `Object.keys(selected).reduce` in
`handleLegendSelectChanged`: `state[key] = disableable ? selected[key]
: true`. -/
def legendStep (disableableSeries : List String)
    (st : List (String × Bool)) (entry : String × Bool) :
    List (String × Bool) :=
  jsSet st entry.1
    (if legendDisableable disableableSeries entry.1 then entry.2 else true)

/-- The `seriesSelection` object built by `handleLegendSelectChanged`;
the legend-change event's `selected` object is given by its ordered
key/value entries (object keys are unique). -/
def handleLegendSelectChanged (disableableSeries : List String)
    (selected : List (String × Bool)) : List (String × Bool) :=
  selected.foldl (legendStep disableableSeries) []

/-- The value stored under a key by the `selected` object (the last
entry, matching JavaScript object-literal semantics). -/
def lastBoolVal (selected : List (String × Bool)) (k : String) :
    Option Bool :=
  selected.foldl (fun r e => if e.1 == k then some e.2 else r) none

theorem lastBoolVal_foldl (selected : List (String × Bool)) (k : String)
    (i : Option Bool) :
    selected.foldl (fun r e => if e.1 == k then some e.2 else r) i =
      match lastBoolVal selected k with
      | some v => some v
      | none => i := by
  induction selected generalizing i with
  | nil => rfl
  | cons e rest ih =>
    have h2 : lastBoolVal (e :: rest) k =
        match lastBoolVal rest k with
        | some v => some v
        | none => if e.1 == k then some e.2 else none := by
      show List.foldl _ (if e.1 == k then some e.2 else none) rest = _
      exact ih _
    rw [List.foldl_cons, ih, h2]
    rcases lastBoolVal rest k with _ | v
    · cases h : (e.1 == k) <;> simp [h]
    · rfl

theorem legend_foldl_jsGet (ds : List String)
    (selected : List (String × Bool)) (k : String)
    (acc : List (String × Bool)) :
    jsGet (selected.foldl (legendStep ds) acc) k =
      match lastBoolVal selected k with
      | some v => some (if legendDisableable ds k then v else true)
      | none => jsGet acc k := by
  induction selected generalizing acc with
  | nil => rfl
  | cons e rest ih =>
    have h2 : lastBoolVal (e :: rest) k =
        match lastBoolVal rest k with
        | some v => some v
        | none => if e.1 == k then some e.2 else none := by
      show List.foldl _ (if e.1 == k then some e.2 else none) rest = _
      exact lastBoolVal_foldl rest k _
    rw [List.foldl_cons, ih, h2]
    rcases lastBoolVal rest k with _ | v
    · by_cases h : e.1 = k
      · have hb : (e.1 == k) = true := by simpa using h
        simp only [hb, if_true]
        unfold legendStep
        rw [← h]
        simp [jsGet_jsSet_self]
      · have hb : (e.1 == k) = false := by simpa using h
        simp only [hb, Bool.false_eq_true, if_false]
        unfold legendStep
        rw [jsGet_jsSet_ne _ _ _ _ h]
    · rfl

/-- C7: in the `seriesSelection` built on a legend change, a series name
carries the user's chosen selection state only when it is `Releases`,
`Other`, or listed in the `disableableSeries` prop; every other series
name is forced to `true`. -/
theorem legend_selection_forces_non_disableable_true (ds : List String)
    (selected : List (String × Bool)) (k : String) :
    jsGet (handleLegendSelectChanged ds selected) k =
      match lastBoolVal selected k with
      | some v => some (if legendDisableable ds k then v else true)
      | none => none :=
  legend_foldl_jsGet ds selected k []
